import Mathlib

/-!
Verification development for the predictive-distribution pushforward and
moment-matching engine of the probit repository.  The numeric domain of the
analytic layer is the real numbers; the special functions `ndtr` and Owen's T
are consumed from an external math library, so they are modelled as an opaque
bundle of real functions.  The direct Dirichlet predictive additionally has
IEEE-style non-finite behaviour (infinities and NaN), which is modelled by an
explicit extended-value type over the rationals.
-/

/-- Batched per-example, per-class real statistics: a `[N, C]` matrix. -/
def Mat (n c : ℕ) : Type := Fin n → Fin c → ℝ

/-- The variance-scaling constant `π / 8` used by the logit link. -/
noncomputable def LAMBDA_0 : ℝ := Real.pi / 8

/-- The external special-function layer: the standard normal CDF `ndtr` and
Owen's T function, supplied by a math library and consumed, never
reimplemented. -/
structure SpecialFns where
  ndtr : ℝ → ℝ
  owensT : ℝ → ℝ → ℝ

/-- The logistic sigmoid. -/
noncomputable def sigmoid (x : ℝ) : ℝ := 1 / (1 + Real.exp (-x))

/-- Whether the pattern occurs at the head of the character list. -/
def startsWithList : List Char → List Char → Bool
  | _, [] => true
  | [], _ :: _ => false
  | a :: as, b :: bs => decide (a = b) && startsWithList as bs

/-- Whether the pattern occurs as a contiguous sublist of the character list. -/
def containsSubList : List Char → List Char → Bool
  | [], pat => startsWithList [] pat
  | a :: rest, pat => startsWithList (a :: rest) pat || containsSubList rest pat

/-- Python-style substring membership test, the semantics of `sub in s`. -/
def strContainsSub (s sub : String) : Bool := containsSubList s.toList sub.toList

/-- The variance scale selected by the link function, raising on anything
outside probit and logit. -/
noncomputable def probit_scale (link_function : String) : Except String ℝ :=
  if link_function = "probit" then Except.ok 1
  else if link_function = "logit" then Except.ok LAMBDA_0
  else Except.error "Invalid link function"

/-- Pushforward mean of a Gaussian logit through the chosen link and output
function; the output-function branch tests are Python substring tests. -/
noncomputable def gaussian_pushforward_mean (sf : SpecialFns) {n c : ℕ}
    (means vars : Mat n c) (link_function output_function : String)
    (return_logits : Bool) : Except String (Mat n c) :=
  match probit_scale link_function with
  | Except.error e => Except.error e
  | Except.ok scale =>
    if strContainsSub output_function "normcdf" then
      let logits : Mat n c := fun i j => means i j / Real.sqrt (1 / scale + vars i j)
      if return_logits then Except.ok logits
      else Except.ok fun i j => sf.ndtr (logits i j)
    else if strContainsSub output_function "sigmoid" then
      let logits : Mat n c := fun i j => means i j / Real.sqrt (1 + scale * vars i j)
      if return_logits then Except.ok logits
      else Except.ok fun i j => sigmoid (logits i j)
    else Except.error "Invalid output function"

/-- Pushforward second moment, via a closed Owen's T identity except for the
sigmoid-product output, which has its own closed form under the logit link. -/
noncomputable def gaussian_pushforward_second_moment (sf : SpecialFns) {n c : ℕ}
    (means vars : Mat n c) (link_function output_function : String) :
    Except String (Mat n c) :=
  match probit_scale link_function with
  | Except.error e => Except.error e
  | Except.ok scale =>
    if output_function = "sigmoid_product" then
      if link_function = "logit" then
        match gaussian_pushforward_mean sf means vars "logit" "sigmoid" false with
        | Except.error e => Except.error e
        | Except.ok s =>
          Except.ok fun i j =>
            s i j - s i j * (1 - s i j) / Real.sqrt (1 + scale * vars i j)
      else Except.error "Invalid link function for sigmoid_product"
    else
      let t_term : Mat n c := fun i j =>
        -2 * sf.owensT (means i j / Real.sqrt (1 / scale + vars i j))
          (1 / Real.sqrt (1 + 2 * scale * vars i j))
      match gaussian_pushforward_mean sf means vars link_function output_function false with
      | Except.error e => Except.error e
      | Except.ok p_term => Except.ok fun i j => p_term i j + t_term i j

/-- The simple predictive: pushforward mean, row normalization, floor at
`1e-10`; in return-logits mode the raw pre-activation scores are returned. -/
noncomputable def probit_predictive (sf : SpecialFns) {n c : ℕ}
    (mean var : Mat n c) (link_function output_function : String)
    (return_logits : Bool) : Except String (Mat n c) :=
  match gaussian_pushforward_mean sf mean var link_function output_function return_logits with
  | Except.error e => Except.error e
  | Except.ok predictives =>
    if return_logits then Except.ok predictives
    else
      let sum_predictives : Fin n → ℝ := fun i => ∑ j, predictives i j
      Except.ok fun i j => max (predictives i j / sum_predictives i) 1e-10

/-- Predictive mean of per-class Beta distributions, row-normalized. -/
noncomputable def beta_predictive {n c : ℕ}
    (beta_params : Fin n → Fin c → Fin 2 → ℝ) : Mat n c :=
  let predictives : Mat n c := fun i j => beta_params i j 0 / ∑ k, beta_params i j k
  let sum_predictives : Fin n → ℝ := fun i => ∑ j, predictives i j
  fun i j => predictives i j / sum_predictives i

/-- Method-of-moments Dirichlet fit: pushforward moments, guarded row sum,
log-space averaged concentration scale, and the Dirichlet predictive mean. -/
noncomputable def get_mom_dirichlet_approximation (sf : SpecialFns) {n c : ℕ}
    (means vars : Mat n c) (link_function output_function : String) :
    Except String (Mat n c) :=
  match gaussian_pushforward_mean sf means vars link_function output_function false with
  | Except.error e => Except.error e
  | Except.ok M1 =>
    match gaussian_pushforward_second_moment sf means vars link_function output_function with
    | Except.error e => Except.error e
    | Except.ok M2 =>
      let S1 : Fin n → ℝ := fun i => ∑ j, M1 i j
      let S : Fin n → ℝ := fun i => max (S1 i) 1
      let LP : Fin n → ℝ := fun i =>
        (∑ j, Real.log ((M1 i j * S i - M2 i j) / (M2 i j - M1 i j ^ 2))) / (c : ℝ)
      let P : Fin n → ℝ := fun i => Real.exp (LP i)
      Except.ok fun i j => P i * M1 i j / S i

/-- Diagonal Hessian of the normalized-sigmoid negative log-likelihood. -/
noncomputable def diag_hessian_normalized_sigmoid {n c : ℕ}
    (logit : Mat n c) (target : Fin n → Fin c) : Mat n c :=
  fun i j =>
    let q := sigmoid (logit i j)
    let p := sigmoid (logit i j) / ∑ k, sigmoid (logit i k)
    let y : ℝ := if target i = j then 1 else 0
    let q_complement := 1 - q
    let pq_complement := p * q_complement
    y * q * q_complement + p * (1 - 3 * q + 2 * q ^ 2) - pq_complement ^ 2

/-- Modelled from the spec: the repository imports `log_normed_sigmoid` from
the predictive utilities, but no definition of it appears in the sources at
hand; the spec states that the normalized-sigmoid log-activation underlying
the loss is the logarithm of `q / sum(q)` with `q = sigmoid(logit)`. -/
noncomputable def log_normed_sigmoid {n c : ℕ} (logit : Mat n c) : Mat n c :=
  fun i j => Real.log (sigmoid (logit i j) / ∑ k, sigmoid (logit i k))

/-- Forward pass of the normalized-sigmoid NLL loss: pick the log-activation
at the target class of every row and negate the batch mean. -/
noncomputable def NormedSigmoidNLLLoss_forward {n c : ℕ}
    (logit : Mat n c) (target : Fin n → Fin c) : ℝ :=
  -((∑ i, log_normed_sigmoid logit i (target i)) / (n : ℝ))

/-- An IEEE-style extended value: a finite rational, a signed infinity, or
NaN.  This is the numeric domain of the direct Dirichlet predictive, whose
behaviour on infinite parameters is part of its contract. -/
inductive FV where
  | fin (x : ℚ)
  | inf
  | ninf
  | nan
deriving DecidableEq

/-- IEEE-style addition on extended values. -/
def FV.add : FV → FV → FV
  | .nan, _ => .nan
  | _, .nan => .nan
  | .inf, .inf => .inf
  | .inf, .ninf => .nan
  | .ninf, .inf => .nan
  | .ninf, .ninf => .ninf
  | .inf, .fin _ => .inf
  | .fin _, .inf => .inf
  | .ninf, .fin _ => .ninf
  | .fin _, .ninf => .ninf
  | .fin a, .fin b => .fin (a + b)

/-- IEEE-style division on extended values; the two-infinity and zero-by-zero
cases are NaN. -/
def FV.div : FV → FV → FV
  | .nan, _ => .nan
  | _, .nan => .nan
  | .inf, .inf => .nan
  | .inf, .ninf => .nan
  | .ninf, .inf => .nan
  | .ninf, .ninf => .nan
  | .inf, .fin b => if 0 ≤ b then .inf else .ninf
  | .ninf, .fin b => if 0 ≤ b then .ninf else .inf
  | .fin _, .inf => .fin 0
  | .fin _, .ninf => .fin 0
  | .fin a, .fin b =>
    if b = 0 then (if a = 0 then .nan else if 0 < a then .inf else .ninf)
    else .fin (a / b)

/-- NaN test on extended values. -/
def FV.isNan : FV → Bool
  | .nan => true
  | _ => false

/-- Left-to-right sum of a list of extended values, starting from finite 0. -/
def FV.sumList : List FV → FV
  | [] => .fin 0
  | x :: xs => x.add (FV.sumList xs)

/-- Predictive mean of Dirichlet distributions with explicit NaN repair: rows
of the normalized parameters that contain a NaN are zeroed, and each NaN
entry is replaced by one over the row's NaN count. -/
def dirichlet_predictive {n c : ℕ} (params : Fin n → Fin c → FV) :
    Fin n → Fin c → FV :=
  fun i j =>
    let s : FV := FV.sumList ((List.finRange c).map (params i))
    let pred : Fin c → FV := fun k => (params i k).div s
    let nan_count : ℕ := ((List.finRange c).filter fun k => (pred k).isNan).length
    let any_nan : Bool := (List.finRange c).any fun k => (pred k).isNan
    let zeroed : FV := if any_nan then FV.fin 0 else pred j
    if (pred j).isNan then FV.fin (1 / (nan_count : ℚ)) else zeroed

/-- The uniform call signature of a deterministic predictive strategy:
per-class Gaussian statistics in, class probabilities (or an error) out,
with the raw-logits flag threaded through. -/
def StratFnType : Type :=
  (n c : ℕ) → SpecialFns → Mat n c → Mat n c → Bool → Except String (Mat n c)

/-- The uniform call signature of a Dirichlet moment-matching strategy. -/
def DirStratFnType : Type :=
  (n c : ℕ) → SpecialFns → Mat n c → Mat n c → Except String (Mat n c)

/-- Strategy: logit link with normal-CDF output. -/
noncomputable def logit_link_normcdf_output : StratFnType :=
  fun _ _ sf mean var return_logits =>
    probit_predictive sf mean var "logit" "normcdf" return_logits

/-- Strategy: logit link with sigmoid output. -/
noncomputable def logit_link_sigmoid_output : StratFnType :=
  fun _ _ sf mean var return_logits =>
    probit_predictive sf mean var "logit" "sigmoid" return_logits

/-- Strategy: probit link with normal-CDF output. -/
noncomputable def probit_link_normcdf_output : StratFnType :=
  fun _ _ sf mean var return_logits =>
    probit_predictive sf mean var "probit" "normcdf" return_logits

/-- Strategy: probit link with sigmoid output. -/
noncomputable def probit_link_sigmoid_output : StratFnType :=
  fun _ _ sf mean var return_logits =>
    probit_predictive sf mean var "probit" "sigmoid" return_logits

/-- Dirichlet strategy: logit link with normal-CDF output. -/
noncomputable def logit_link_normcdf_output_dirichlet : DirStratFnType :=
  fun _ _ sf mean var => get_mom_dirichlet_approximation sf mean var "logit" "normcdf"

/-- Dirichlet strategy: logit link with sigmoid output. -/
noncomputable def logit_link_sigmoid_output_dirichlet : DirStratFnType :=
  fun _ _ sf mean var => get_mom_dirichlet_approximation sf mean var "logit" "sigmoid"

/-- Dirichlet strategy: logit link with sigmoid-product output. -/
noncomputable def logit_link_sigmoid_product_output_dirichlet : DirStratFnType :=
  fun _ _ sf mean var =>
    get_mom_dirichlet_approximation sf mean var "logit" "sigmoid_product"

/-- Dirichlet strategy: probit link with normal-CDF output. -/
noncomputable def probit_link_normcdf_output_dirichlet : DirStratFnType :=
  fun _ _ sf mean var => get_mom_dirichlet_approximation sf mean var "probit" "normcdf"

/-- Dirichlet strategy: probit link with sigmoid output. -/
noncomputable def probit_link_sigmoid_output_dirichlet : DirStratFnType :=
  fun _ _ sf mean var => get_mom_dirichlet_approximation sf mean var "probit" "sigmoid"

/-- One tag per function object registered in the predictive registry.  The
Monte-Carlo and softmax-family entries draw random samples or live in the
softmax path, so only the four deterministic link/output strategies carry a
deterministic interpretation here. -/
inductive PredictiveFn where
  | softmax_laplace_bridge
  | softmax_mean_field
  | softmax_mc
  | logit_link_normcdf_output
  | logit_link_sigmoid_output
  | logit_link_mc
  | probit_link_normcdf_output
  | probit_link_sigmoid_output
  | probit_link_mc
deriving DecidableEq

/-- The predictive registry, in source order: strategy name to the function
object it stores.  The sigmoid-product name is bound to the plain sigmoid
strategy function. -/
def PREDICTIVE_DICT (name : String) : Option PredictiveFn :=
  if name = "softmax_laplace_bridge" then some .softmax_laplace_bridge
  else if name = "softmax_mean_field" then some .softmax_mean_field
  else if name = "softmax_mc" then some .softmax_mc
  else if name = "logit_link_normcdf_output" then some .logit_link_normcdf_output
  else if name = "logit_link_sigmoid_output" then some .logit_link_sigmoid_output
  else if name = "logit_link_sigmoid_product_output" then some .logit_link_sigmoid_output
  else if name = "logit_link_mc" then some .logit_link_mc
  else if name = "probit_link_normcdf_output" then some .probit_link_normcdf_output
  else if name = "probit_link_sigmoid_output" then some .probit_link_sigmoid_output
  else if name = "probit_link_mc" then some .probit_link_mc
  else none

/-- Deterministic behaviour of a registered predictive function object, when
it has one; the Monte-Carlo entries are randomized and the softmax-family
entries take extra configuration, so they carry none here. -/
noncomputable def runPredictive : PredictiveFn → Option StratFnType
  | .logit_link_normcdf_output => some logit_link_normcdf_output
  | .logit_link_sigmoid_output => some logit_link_sigmoid_output
  | .probit_link_normcdf_output => some probit_link_normcdf_output
  | .probit_link_sigmoid_output => some probit_link_sigmoid_output
  | _ => none

/-- Registry lookup backing the predictive accessor: an unknown name is a
lookup failure, never a silent default. -/
def get_predictive (predictive : String) : Option PredictiveFn :=
  PREDICTIVE_DICT predictive

/-- The Dirichlet registry, in source order; here the sigmoid-product name is
bound to the genuine sigmoid-product strategy. -/
noncomputable def DIRICHLET_DICT (name : String) : Option DirStratFnType :=
  if name = "logit_link_normcdf_output" then some logit_link_normcdf_output_dirichlet
  else if name = "logit_link_sigmoid_output" then some logit_link_sigmoid_output_dirichlet
  else if name = "logit_link_sigmoid_product_output" then
    some logit_link_sigmoid_product_output_dirichlet
  else if name = "probit_link_normcdf_output" then some probit_link_normcdf_output_dirichlet
  else if name = "probit_link_sigmoid_output" then some probit_link_sigmoid_output_dirichlet
  else none

/-- A successful scale lookup pins the link to probit or logit. -/
theorem probit_scale_cases {link : String} {scale : ℝ}
    (h : probit_scale link = Except.ok scale) :
    (link = "probit" ∧ scale = 1) ∨ (link = "logit" ∧ scale = LAMBDA_0) := by
  unfold probit_scale at h
  by_cases h1 : link = "probit"
  · rw [if_pos h1] at h
    exact Or.inl ⟨h1, (Except.ok.inj h).symm⟩
  · rw [if_neg h1] at h
    by_cases h2 : link = "logit"
    · rw [if_pos h2] at h
      exact Or.inr ⟨h2, (Except.ok.inj h).symm⟩
    · rw [if_neg h2] at h
      exact absurd h (by simp)

/-- Normal-CDF pushforward mean, closed form. -/
theorem gpm_normcdf_ok (sf : SpecialFns) {n c : ℕ} (means vars : Mat n c)
    {link : String} {scale : ℝ} (h : probit_scale link = Except.ok scale) :
    gaussian_pushforward_mean sf means vars link "normcdf" false
      = Except.ok fun i j => sf.ndtr (means i j / Real.sqrt (1 / scale + vars i j)) := by
  unfold gaussian_pushforward_mean
  rw [h]
  rfl

/-- Sigmoid pushforward mean, closed form. -/
theorem gpm_sigmoid_ok (sf : SpecialFns) {n c : ℕ} (means vars : Mat n c)
    {link : String} {scale : ℝ} (h : probit_scale link = Except.ok scale) :
    gaussian_pushforward_mean sf means vars link "sigmoid" false
      = Except.ok fun i j => sigmoid (means i j / Real.sqrt (1 + scale * vars i j)) := by
  unfold gaussian_pushforward_mean
  rw [h]
  rfl

/-- Sigmoid-product pushforward mean, closed form: it shares the sigmoid
branch. -/
theorem gpm_sigmoid_product_ok (sf : SpecialFns) {n c : ℕ} (means vars : Mat n c)
    {link : String} {scale : ℝ} (h : probit_scale link = Except.ok scale) :
    gaussian_pushforward_mean sf means vars link "sigmoid_product" false
      = Except.ok fun i j => sigmoid (means i j / Real.sqrt (1 + scale * vars i j)) := by
  unfold gaussian_pushforward_mean
  rw [h]
  rfl

/-- C1: for every mean and var matrix with var elementwise non-negative, the
pushforward mean with output normcdf is `ndtr (mean / sqrt (1 / scale + var))`
and with output sigmoid or sigmoid-product it is
`sigmoid (mean / sqrt (1 + scale * var))`, where the scale of the probit link
is 1 and the scale of the logit link is `π / 8`. -/
theorem C1_gaussian_pushforward_mean_formula (sf : SpecialFns) {n c : ℕ}
    (means vars : Mat n c) (hv : ∀ i j, 0 ≤ vars i j)
    (link : String) (scale : ℝ) (h : probit_scale link = Except.ok scale) :
    (gaussian_pushforward_mean sf means vars link "normcdf" false
        = Except.ok fun i j => sf.ndtr (means i j / Real.sqrt (1 / scale + vars i j)))
    ∧ (gaussian_pushforward_mean sf means vars link "sigmoid" false
        = Except.ok fun i j => sigmoid (means i j / Real.sqrt (1 + scale * vars i j)))
    ∧ (gaussian_pushforward_mean sf means vars link "sigmoid_product" false
        = Except.ok fun i j => sigmoid (means i j / Real.sqrt (1 + scale * vars i j)))
    ∧ probit_scale "probit" = Except.ok 1
    ∧ probit_scale "logit" = Except.ok (Real.pi / 8) := by
  refine ⟨gpm_normcdf_ok sf means vars h, gpm_sigmoid_ok sf means vars h,
    gpm_sigmoid_product_ok sf means vars h, rfl, rfl⟩

/-- A trivial instantiation of the external special-function layer, used to
exercise the theorems on concrete inputs. -/
noncomputable def wsf : SpecialFns := ⟨fun _ => 1 / 2, fun _ _ => 0⟩

/-- A concrete all-zero one-by-one statistics matrix. -/
noncomputable def zeroMat : Mat 1 1 := fun _ _ => 0

/-- Witness for C1 at the probit link on concrete zero statistics. -/
theorem C1_gaussian_pushforward_mean_formula_witness :
    (gaussian_pushforward_mean wsf zeroMat zeroMat "probit" "normcdf" false
        = Except.ok fun i j => wsf.ndtr (zeroMat i j / Real.sqrt (1 / 1 + zeroMat i j)))
    ∧ (gaussian_pushforward_mean wsf zeroMat zeroMat "probit" "sigmoid" false
        = Except.ok fun i j => sigmoid (zeroMat i j / Real.sqrt (1 + 1 * zeroMat i j)))
    ∧ (gaussian_pushforward_mean wsf zeroMat zeroMat "probit" "sigmoid_product" false
        = Except.ok fun i j => sigmoid (zeroMat i j / Real.sqrt (1 + 1 * zeroMat i j)))
    ∧ probit_scale "probit" = Except.ok 1
    ∧ probit_scale "logit" = Except.ok (Real.pi / 8) :=
  C1_gaussian_pushforward_mean_formula wsf zeroMat zeroMat
    (fun _ _ => le_refl 0) "probit" 1 rfl

/-- C2: for every mean and var with var non-negative and output normcdf or
sigmoid, the pushforward second moment equals the pushforward mean plus
`-2 * OwensT (mean / sqrt (1 / scale + var), 1 / sqrt (1 + 2 * scale * var))`,
with the scale determined by the link function. -/
theorem C2_gaussian_pushforward_second_moment_formula (sf : SpecialFns) {n c : ℕ}
    (means vars : Mat n c) (hv : ∀ i j, 0 ≤ vars i j)
    (link output : String) (scale : ℝ) (M1 : Mat n c)
    (h : probit_scale link = Except.ok scale)
    (hout : output = "normcdf" ∨ output = "sigmoid")
    (hM1 : gaussian_pushforward_mean sf means vars link output false = Except.ok M1) :
    gaussian_pushforward_second_moment sf means vars link output
      = Except.ok fun i j =>
          M1 i j + -2 * sf.owensT (means i j / Real.sqrt (1 / scale + vars i j))
            (1 / Real.sqrt (1 + 2 * scale * vars i j)) := by
  rcases hout with h1 | h1 <;> subst h1 <;>
    (unfold gaussian_pushforward_second_moment; rw [h, hM1]; rfl)

/-- The pushforward mean of zero statistics under the trivial external layer. -/
noncomputable def wM1 : Mat 1 1 :=
  fun i j => wsf.ndtr (zeroMat i j / Real.sqrt (1 / 1 + zeroMat i j))

/-- Witness for C2 at the probit link with normcdf output on zero statistics. -/
theorem C2_gaussian_pushforward_second_moment_formula_witness :
    gaussian_pushforward_second_moment wsf zeroMat zeroMat "probit" "normcdf"
      = Except.ok fun i j =>
          wM1 i j + -2 * wsf.owensT (zeroMat i j / Real.sqrt (1 / 1 + zeroMat i j))
            (1 / Real.sqrt (1 + 2 * 1 * zeroMat i j)) :=
  C2_gaussian_pushforward_second_moment_formula wsf zeroMat zeroMat
    (fun _ _ => le_refl 0) "probit" "normcdf" 1 wM1 rfl (Or.inl rfl) rfl

/-- C3: for every mean and var with var non-negative, the Dirichlet
moment-matching fitter computes the moments via the pushforward functions,
sets `S1` to the row sum of `M1`, guards it as `S = max (S1, 1)`, logs the
per-class ratio `(M1 * S - M2) / (M2 - M1 ^ 2)`, averages the logs across
classes, exponentiates, and returns `P * M1 / S`. -/
theorem C3_get_mom_dirichlet_approximation_formula (sf : SpecialFns) {n c : ℕ}
    (means vars : Mat n c) (hv : ∀ i j, 0 ≤ vars i j)
    (link output : String) (M1 M2 : Mat n c)
    (hM1 : gaussian_pushforward_mean sf means vars link output false = Except.ok M1)
    (hM2 : gaussian_pushforward_second_moment sf means vars link output = Except.ok M2) :
    get_mom_dirichlet_approximation sf means vars link output
      = Except.ok fun i j =>
          Real.exp ((∑ k, Real.log ((M1 i k * max (∑ l, M1 i l) 1 - M2 i k)
              / (M2 i k - M1 i k ^ 2))) / (c : ℝ))
            * M1 i j / max (∑ l, M1 i l) 1 := by
  unfold get_mom_dirichlet_approximation
  rw [hM1, hM2]

/-- The pushforward second moment of zero statistics under the trivial
external layer. -/
noncomputable def wM2 : Mat 1 1 :=
  fun i j => wM1 i j + -2 * wsf.owensT (zeroMat i j / Real.sqrt (1 / 1 + zeroMat i j))
    (1 / Real.sqrt (1 + 2 * 1 * zeroMat i j))

/-- Witness for C3 at the probit link with normcdf output on zero statistics. -/
theorem C3_get_mom_dirichlet_approximation_formula_witness :
    get_mom_dirichlet_approximation wsf zeroMat zeroMat "probit" "normcdf"
      = Except.ok fun i j =>
          Real.exp ((∑ k, Real.log ((wM1 i k * max (∑ l, wM1 i l) 1 - wM2 i k)
              / (wM2 i k - wM1 i k ^ 2))) / ((1 : ℕ) : ℝ))
            * wM1 i j / max (∑ l, wM1 i l) 1 :=
  C3_get_mom_dirichlet_approximation_formula wsf zeroMat zeroMat
    (fun _ _ => le_refl 0) "probit" "normcdf" wM1 wM2 rfl rfl

/-- C6: for every logit matrix and target vector of class indices, the
normalized-sigmoid diagonal Hessian is exactly
`y*q*(1-q) + p*(1 - 3q + 2q^2) - (p*(1-q))^2` with `q = sigmoid(logit)`,
`p = q / sum(q)` per row, and `y` the one-hot target. -/
theorem C6_diag_hessian_normalized_sigmoid_formula {n c : ℕ}
    (logit : Mat n c) (target : Fin n → Fin c) :
    diag_hessian_normalized_sigmoid logit target
      = fun i j =>
          (if target i = j then (1 : ℝ) else 0) * sigmoid (logit i j)
              * (1 - sigmoid (logit i j))
            + (sigmoid (logit i j) / ∑ k, sigmoid (logit i k))
              * (1 - 3 * sigmoid (logit i j) + 2 * sigmoid (logit i j) ^ 2)
            - ((sigmoid (logit i j) / ∑ k, sigmoid (logit i k))
              * (1 - sigmoid (logit i j))) ^ 2 := rfl

/-- C7: for every logit matrix and target vector, the forward pass of the
normalized-sigmoid NLL loss is the negated batch mean of
`log (q_target / sum q)` with `q = sigmoid(logit)` and the sum running over
the classes of each row. -/
theorem C7_normed_sigmoid_nll_loss_forward {n c : ℕ}
    (logit : Mat n c) (target : Fin n → Fin c) :
    NormedSigmoidNLLLoss_forward logit target
      = -((∑ i, Real.log (sigmoid (logit i (target i))
          / ∑ k, sigmoid (logit i k))) / (n : ℝ)) := rfl

/-- C10: the predictive registry binds the sigmoid-product strategy name to
the very same function object as the plain sigmoid strategy name, so both
names produce identical class probabilities, while the separate Dirichlet
registry binds the sigmoid-product name to the genuine sigmoid-product
moment-matching strategy. -/
theorem C10_sigmoid_product_aliasing :
    PREDICTIVE_DICT "logit_link_sigmoid_product_output"
        = PREDICTIVE_DICT "logit_link_sigmoid_output"
    ∧ PREDICTIVE_DICT "logit_link_sigmoid_product_output"
        = some PredictiveFn.logit_link_sigmoid_output
    ∧ (PREDICTIVE_DICT "logit_link_sigmoid_product_output").bind runPredictive
        = some logit_link_sigmoid_output
    ∧ DIRICHLET_DICT "logit_link_sigmoid_product_output"
        = some logit_link_sigmoid_product_output_dirichlet
    ∧ logit_link_sigmoid_product_output_dirichlet
        = fun _ _ sf mean var =>
            get_mom_dirichlet_approximation sf mean var "logit" "sigmoid_product" :=
  ⟨rfl, rfl, rfl, rfl, rfl⟩

/-- C9 counterexample: the output-function string "normcdfx" lies outside the
valid set, yet the pushforward mean does not fail on it — the source tests
output functions by substring containment, so any string embedding "normcdf"
or "sigmoid" is accepted. -/
theorem C9_counterexample_substring_accepted :
    ("normcdfx" ≠ "normcdf" ∧ "normcdfx" ≠ "sigmoid"
      ∧ "normcdfx" ≠ "sigmoid_product")
    ∧ gaussian_pushforward_mean wsf zeroMat zeroMat "probit" "normcdfx" false
        = Except.ok fun i j => wsf.ndtr (zeroMat i j / Real.sqrt (1 / 1 + zeroMat i j)) :=
  ⟨⟨by decide, by decide, by decide⟩, rfl⟩

/-- C9 amended: unknown link functions fail immediately, unknown strategy
names fail the registry lookup, and the pushforward functions raise on an
output-function string exactly when it contains neither "normcdf" nor
"sigmoid" as a substring; no default is ever substituted. -/
theorem C9_amended_fail_fast (sf : SpecialFns) {n c : ℕ} (means vars : Mat n c)
    (link output name : String) :
    (link ≠ "probit" → link ≠ "logit" →
      gaussian_pushforward_mean sf means vars link output false
        = Except.error "Invalid link function")
    ∧ ((link = "probit" ∨ link = "logit") →
      strContainsSub output "normcdf" = false →
      strContainsSub output "sigmoid" = false →
      gaussian_pushforward_mean sf means vars link output false
        = Except.error "Invalid output function")
    ∧ (name ∉ (["softmax_laplace_bridge", "softmax_mean_field", "softmax_mc",
        "logit_link_normcdf_output", "logit_link_sigmoid_output",
        "logit_link_sigmoid_product_output", "logit_link_mc",
        "probit_link_normcdf_output", "probit_link_sigmoid_output",
        "probit_link_mc"] : List String) → get_predictive name = none) := by
  refine ⟨?_, ?_, ?_⟩
  · intro h1 h2
    unfold gaussian_pushforward_mean probit_scale
    rw [if_neg h1, if_neg h2]
  · intro hl hnc hsg
    rcases hl with h1 | h1 <;> subst h1 <;>
      simp [gaussian_pushforward_mean, probit_scale, hnc, hsg]
  · intro hmem
    simp only [List.mem_cons, List.not_mem_nil, or_false] at hmem
    push_neg at hmem
    obtain ⟨e1, e2, e3, e4, e5, e6, e7, e8, e9, e10⟩ := hmem
    simp [get_predictive, PREDICTIVE_DICT, e1, e2, e3, e4, e5, e6, e7, e8, e9, e10]

/-- Witness for the amended C9: a concrete unknown link, a concrete output
string containing neither valid substring, and a concrete unknown registry
name all fail. -/
theorem C9_amended_fail_fast_witness :
    gaussian_pushforward_mean wsf zeroMat zeroMat "cauchit" "normcdf" false
      = Except.error "Invalid link function"
    ∧ gaussian_pushforward_mean wsf zeroMat zeroMat "probit" "softplus" false
      = Except.error "Invalid output function"
    ∧ get_predictive "softmax_bogus" = none :=
  ⟨(C9_amended_fail_fast wsf zeroMat zeroMat "cauchit" "normcdf" "x").1
      (by decide) (by decide),
   (C9_amended_fail_fast wsf zeroMat zeroMat "probit" "softplus" "x").2.1
      (Or.inl rfl) (by decide) (by decide),
   (C9_amended_fail_fast wsf zeroMat zeroMat "p" "o" "softmax_bogus").2.2
      (by decide)⟩

/-- Summing a list of finite extended values is finite summation. -/
theorem fv_sumList_map_fin {α : Type} (l : List α) (f : α → ℚ) :
    FV.sumList (l.map fun a => FV.fin (f a)) = FV.fin (l.map f).sum := by
  induction l with
  | nil => rfl
  | cons a l ih => simp [FV.sumList, ih, FV.add]

/-- Dividing every list element by a common scalar divides the sum. -/
theorem list_sum_map_div {α : Type} (l : List α) (f : α → ℚ) (S : ℚ) :
    (l.map fun a => f a / S).sum = (l.map f).sum / S := by
  induction l with
  | nil => simp
  | cons a l ih => simp [ih, add_div]

/-- On a row of strictly positive finite parameters, the direct Dirichlet
predictive takes no repair branch and its row sums to finite one. -/
theorem dirichlet_predictive_fin_pos_row {n c : ℕ} (hc : 0 < c)
    (params : Fin n → Fin c → FV) (xs : Fin n → Fin c → ℚ)
    (hxpos : ∀ i j, 0 < xs i j) (hfin : ∀ i j, params i j = FV.fin (xs i j))
    (i : Fin n) :
    FV.sumList ((List.finRange c).map fun j => dirichlet_predictive params i j)
      = FV.fin 1 := by
  have hmap : (List.finRange c).map (params i)
      = (List.finRange c).map fun j => FV.fin (xs i j) :=
    List.map_congr_left fun j _ => hfin i j
  set S : ℚ := ((List.finRange c).map (xs i)).sum with hSdef
  have hsum : FV.sumList ((List.finRange c).map (params i)) = FV.fin S := by
    rw [hmap, fv_sumList_map_fin]
  have hSpos : 0 < S := by
    apply List.sum_pos
    · intro x hx
      obtain ⟨j, _, rfl⟩ := List.mem_map.mp hx
      exact hxpos i j
    · have hlen : 0 < ((List.finRange c).map (xs i)).length := by
        simpa [List.length_finRange] using hc
      exact List.length_pos.mp hlen
  have key : ∀ j, (params i j).div (FV.sumList ((List.finRange c).map (params i)))
      = FV.fin (xs i j / S) := by
    intro j
    rw [hsum, hfin i j]
    simp [FV.div, hSpos.ne']
  have hentry : ∀ j, dirichlet_predictive params i j = FV.fin (xs i j / S) := by
    intro j
    simp only [dirichlet_predictive, key, FV.isNan]
    simp
  have hrow : (List.finRange c).map (fun j => dirichlet_predictive params i j)
      = (List.finRange c).map fun j => FV.fin (xs i j / S) :=
    List.map_congr_left fun j _ => hentry j
  rw [hrow, fv_sumList_map_fin, list_sum_map_div, div_self hSpos.ne']

/-- Closed form of the simple predictive once the pushforward mean is known. -/
theorem probit_predictive_ok (sf : SpecialFns) {n c : ℕ} (mean var : Mat n c)
    (link output : String) (M : Mat n c)
    (hM : gaussian_pushforward_mean sf mean var link output false = Except.ok M) :
    probit_predictive sf mean var link output false
      = Except.ok fun i j => max (M i j / ∑ k, M i k) 1e-10 := by
  unfold probit_predictive
  rw [hM]
  rfl

/-- C4: on valid inputs every predictive row sums to one within floating
tolerance: the simple predictive row sums land in `[1, 1 + C * 1e-10]`
(the floor can only push the exact unit sum up by at most `C` floors), and
the Beta and Dirichlet predictive rows sum to exactly one. -/
theorem C4_row_sum_invariant (sf : SpecialFns) {n c : ℕ} (hc : 0 < c)
    (mean var : Mat n c) (link output : String) (M : Mat n c)
    (hM : gaussian_pushforward_mean sf mean var link output false = Except.ok M)
    (hpos : ∀ i j, 0 < M i j)
    (beta_params : Fin n → Fin c → Fin 2 → ℝ)
    (hbpos : ∀ i j k, 0 < beta_params i j k)
    (params : Fin n → Fin c → FV) (xs : Fin n → Fin c → ℚ)
    (hxpos : ∀ i j, 0 < xs i j) (hfin : ∀ i j, params i j = FV.fin (xs i j)) :
    (∀ P, probit_predictive sf mean var link output false = Except.ok P →
      ∀ i, 1 ≤ ∑ j, P i j ∧ ∑ j, P i j ≤ 1 + (c : ℝ) * 1e-10)
    ∧ (∀ i, ∑ j, beta_predictive beta_params i j = 1)
    ∧ (∀ i, FV.sumList ((List.finRange c).map fun j => dirichlet_predictive params i j)
        = FV.fin 1) := by
  haveI : Nonempty (Fin c) := ⟨⟨0, hc⟩⟩
  refine ⟨?_, ?_, fun i => dirichlet_predictive_fin_pos_row hc params xs hxpos hfin i⟩
  · intro P hP i
    rw [probit_predictive_ok sf mean var link output M hM] at hP
    obtain rfl : (fun i j => max (M i j / ∑ k, M i k) 1e-10 : Mat n c) = P :=
      Except.ok.inj hP
    have hS : 0 < ∑ k, M i k := Finset.sum_pos (fun k _ => hpos i k) Finset.univ_nonempty
    have h1 : ∑ j, M i j / (∑ k, M i k) = 1 := by
      rw [← Finset.sum_div]
      exact div_self hS.ne'
    have hconst : ∑ _j : Fin c, (1e-10 : ℝ) = (c : ℝ) * 1e-10 := by
      simp [Finset.sum_const, Finset.card_fin, nsmul_eq_mul]
    constructor
    · calc (1 : ℝ) = ∑ j, M i j / (∑ k, M i k) := h1.symm
        _ ≤ ∑ j, max (M i j / ∑ k, M i k) 1e-10 :=
          Finset.sum_le_sum fun j _ => le_max_left _ _
    · calc ∑ j, max (M i j / ∑ k, M i k) 1e-10
          ≤ ∑ j, (M i j / ∑ k, M i k + 1e-10) :=
            Finset.sum_le_sum fun j _ =>
              max_le (le_add_of_nonneg_right (by norm_num))
                (le_add_of_nonneg_left (le_of_lt (div_pos (hpos i j) hS)))
        _ = 1 + (c : ℝ) * 1e-10 := by rw [Finset.sum_add_distrib, h1, hconst]
  · intro i
    have hpred : ∀ j, 0 < beta_params i j 0 / ∑ k, beta_params i j k := by
      intro j
      apply div_pos (hbpos i j 0)
      exact Finset.sum_pos (fun k _ => hbpos i j k) Finset.univ_nonempty
    have hS2 : 0 < ∑ j, beta_params i j 0 / ∑ k, beta_params i j k :=
      Finset.sum_pos (fun j _ => hpred j) Finset.univ_nonempty
    simp only [beta_predictive]
    rw [← Finset.sum_div]
    exact div_self hS2.ne'

/-- Concrete instance of the simple predictive matrix used by the C4 witness. -/
noncomputable def wP : Mat 1 1 := fun i j => max (wM1 i j / ∑ k, wM1 i k) 1e-10

/-- Witness for C4 on concrete one-by-one inputs: positive pushforward mean,
unit Beta parameters, and a finite positive Dirichlet parameter row. -/
theorem C4_row_sum_invariant_witness :
    (1 ≤ ∑ j, wP 0 j ∧ ∑ j, wP 0 j ≤ 1 + ((1 : ℕ) : ℝ) * 1e-10)
    ∧ (∑ j, beta_predictive (fun _ _ _ => (1 : ℝ) : Fin 1 → Fin 1 → Fin 2 → ℝ) 0 j = 1)
    ∧ FV.sumList ((List.finRange 1).map fun j =>
        dirichlet_predictive (fun _ _ => FV.fin 1 : Fin 1 → Fin 1 → FV) 0 j)
      = FV.fin 1 := by
  have h := C4_row_sum_invariant wsf (by norm_num) zeroMat zeroMat "probit" "normcdf"
    wM1 rfl (fun i j => by norm_num [wM1, wsf, zeroMat])
    (fun _ _ _ => (1 : ℝ)) (fun _ _ _ => one_pos)
    (fun _ _ => FV.fin 1) (fun _ _ => 1) (fun _ _ => one_pos) (fun _ _ => rfl)
  exact ⟨h.1 wP (probit_predictive_ok wsf zeroMat zeroMat "probit" "normcdf" wM1 rfl) 0,
    h.2.1 0, h.2.2 0⟩

/-- A nonempty list of positive infinities sums to positive infinity. -/
theorem fv_sumList_replicate_inf {m : ℕ} (hm : 0 < m) :
    FV.sumList (List.replicate m FV.inf) = FV.inf := by
  induction m with
  | zero => exact absurd hm (lt_irrefl 0)
  | succ k ih =>
    cases k with
    | zero => rfl
    | succ k2 =>
      show FV.add FV.inf (FV.sumList (List.replicate (k2 + 1) FV.inf)) = FV.inf
      rw [ih (Nat.succ_pos k2)]
      rfl

/-- In a row whose normalized parameters contain a NaN, the direct Dirichlet
predictive zeroes the non-NaN entries and spreads one over the NaN count over
the NaN entries. -/
theorem dirichlet_predictive_nan_row {n c : ℕ} (params : Fin n → Fin c → FV)
    (i : Fin n)
    (h : ((List.finRange c).any fun k =>
      ((params i k).div (FV.sumList ((List.finRange c).map (params i)))).isNan) = true)
    (j : Fin c) :
    dirichlet_predictive params i j =
      if ((params i j).div (FV.sumList ((List.finRange c).map (params i)))).isNan
      then FV.fin (1 / ((((List.finRange c).filter fun k =>
        ((params i k).div (FV.sumList ((List.finRange c).map (params i)))).isNan).length : ℕ) : ℚ))
      else FV.fin 0 := by
  simp only [dirichlet_predictive, h, if_true]

/-- C8: in the direct Dirichlet predictive, every row of the normalized
result containing at least one NaN has each NaN entry replaced by one over
the row's NaN count and every other entry of that row set to zero; in
particular an all-infinite parameter row yields the uniform distribution. -/
theorem C8_dirichlet_predictive_nan_repair {n c : ℕ} (params : Fin n → Fin c → FV)
    (i : Fin n) :
    ((((List.finRange c).any fun k =>
        ((params i k).div (FV.sumList ((List.finRange c).map (params i)))).isNan) = true) →
      ∀ j, dirichlet_predictive params i j =
        if ((params i j).div (FV.sumList ((List.finRange c).map (params i)))).isNan
        then FV.fin (1 / ((((List.finRange c).filter fun k =>
          ((params i k).div (FV.sumList ((List.finRange c).map (params i)))).isNan).length : ℕ) : ℚ))
        else FV.fin 0)
    ∧ ((∀ k, params i k = FV.inf) → 0 < c →
      ∀ j, dirichlet_predictive params i j = FV.fin (1 / (c : ℚ))) := by
  constructor
  · exact fun h j => dirichlet_predictive_nan_row params i h j
  · intro hinf hc j
    have hmap : (List.finRange c).map (params i) = List.replicate c FV.inf := by
      have hm2 : (List.finRange c).map (params i)
          = (List.finRange c).map fun _ => FV.inf :=
        List.map_congr_left fun k _ => hinf k
      rw [hm2, List.map_const', List.length_finRange]
    have hsum : FV.sumList ((List.finRange c).map (params i)) = FV.inf := by
      rw [hmap]
      exact fv_sumList_replicate_inf hc
    have hpred : ∀ k : Fin c,
        (params i k).div (FV.sumList ((List.finRange c).map (params i))) = FV.nan := by
      intro k
      rw [hsum, hinf k]
      rfl
    have hany : ((List.finRange c).any fun k =>
        ((params i k).div (FV.sumList ((List.finRange c).map (params i)))).isNan) = true := by
      apply List.any_eq_true.mpr
      exact ⟨j, List.mem_finRange j, by rw [hpred j]; rfl⟩
    have hfilter : ((List.finRange c).filter fun k =>
        ((params i k).div (FV.sumList ((List.finRange c).map (params i)))).isNan)
        = List.finRange c :=
      List.filter_eq_self.mpr fun k _ => by rw [hpred k]; rfl
    rw [dirichlet_predictive_nan_row params i hany j, hpred j,
      if_pos (show FV.nan.isNan = true from rfl), hfilter, List.length_finRange]

/-- A parameter row mixing one infinite and one finite entry. -/
def c8mixed : Fin 1 → Fin 2 → FV := fun _ j => if j = 0 then FV.inf else FV.fin 1

/-- An all-infinite parameter row. -/
def c8allinf : Fin 1 → Fin 2 → FV := fun _ _ => FV.inf

/-- Witness for C8: the mixed row puts the whole mass on its single NaN entry
and zeroes the finite entry; the all-infinite row is uniform. -/
theorem C8_dirichlet_predictive_nan_repair_witness :
    dirichlet_predictive c8mixed 0 0 = FV.fin 1
    ∧ dirichlet_predictive c8mixed 0 1 = FV.fin 0
    ∧ dirichlet_predictive c8allinf 0 0 = FV.fin (1 / 2) := by
  have hlen : ((List.finRange 2).filter fun k =>
      ((c8mixed 0 k).div (FV.sumList ((List.finRange 2).map (c8mixed 0)))).isNan).length
      = 1 := by decide
  refine ⟨?_, ?_, ?_⟩
  · rw [(C8_dirichlet_predictive_nan_repair c8mixed 0).1 rfl 0,
      if_pos (show ((c8mixed 0 0).div
        (FV.sumList ((List.finRange 2).map (c8mixed 0)))).isNan = true from rfl), hlen]
    simp
  · rw [(C8_dirichlet_predictive_nan_repair c8mixed 0).1 rfl 1,
      if_neg (show ¬((c8mixed 0 1).div
        (FV.sumList ((List.finRange 2).map (c8mixed 0)))).isNan = true by decide)]
  · have h := (C8_dirichlet_predictive_nan_repair c8allinf 0).2
      (fun _ => rfl) (by decide) 0
    simpa using h

/-- The end-to-end example mean `[[1, -1]]`. -/
noncomputable def c5mean : Mat 1 2 := fun _ j => if j = 0 then 1 else -1

/-- The end-to-end example variance `[[0.5, 0.5]]`. -/
noncomputable def c5var : Mat 1 2 := fun _ _ => 1 / 2

/-- The pre-activation logits the code computes on the example: division by
`sqrt (1 / scale + var)` with probit scale one. -/
noncomputable def c5logits : Mat 1 2 := fun i j => c5mean i j / Real.sqrt (1 / 1 + c5var i j)

/-- The pushforward mean matrix on the example for a given external layer. -/
noncomputable def c5M (sf : SpecialFns) : Mat 1 2 := fun i j => sf.ndtr (c5logits i j)

/-- C5 counterexample: on the end-to-end example the code's pre-activation
logits are `mean / sqrt (1 + 0.5)`, not `mean / sqrt (2 + 0.5)`, and the
first logit misses the claimed value 0.632 by far more than the claimed
1e-3 tolerance. -/
theorem C5_counterexample_wrong_logits :
    probit_predictive wsf c5mean c5var "probit" "normcdf" true = Except.ok c5logits
    ∧ c5logits 0 0 = 1 / Real.sqrt (1 / 1 + 1 / 2)
    ∧ c5logits 0 0 ≠ 1 / Real.sqrt (2 + 0.5)
    ∧ ¬|c5logits 0 0 - 0.632| ≤ 1e-3 := by
  have hval : c5logits 0 0 = 1 / Real.sqrt (1 / 1 + 1 / 2) := rfl
  have hspos : 0 < Real.sqrt (1 / 1 + 1 / 2) := Real.sqrt_pos.mpr (by norm_num)
  have hs_lt : Real.sqrt (1 / 1 + 1 / 2) < 1.25 := by
    apply (Real.sqrt_lt' (by norm_num)).mpr
    norm_num
  have hgt : (0.8 : ℝ) < 1 / Real.sqrt (1 / 1 + 1 / 2) := by
    rw [lt_div_iff₀ hspos]
    linarith [hs_lt]
  refine ⟨rfl, hval, ?_, ?_⟩
  · rw [hval]
    have hlt2 : Real.sqrt (1 / 1 + 1 / 2) < Real.sqrt (2 + 0.5) :=
      Real.sqrt_lt_sqrt (by norm_num) (by norm_num)
    exact (one_div_lt_one_div_of_lt hspos hlt2).ne'
  · intro habs
    have hub := (abs_le.mp habs).2
    rw [hval] at hub
    linarith [hgt]

/-- C5 amended: on the example the code's logits are
`mean / sqrt (1 + 0.5) = [0.8165, -0.8165]`, so for any external normal CDF
accurate near those points the normalized, floored predictive is within 1e-3
of `[0.7929, 0.2071]`. -/
theorem C5_amended_end_to_end (sf : SpecialFns)
    (h1 : |sf.ndtr (1 / Real.sqrt (1 / 1 + 1 / 2)) - 0.7929| ≤ 5e-4)
    (h2 : sf.ndtr (-(1 / Real.sqrt (1 / 1 + 1 / 2)))
      = 1 - sf.ndtr (1 / Real.sqrt (1 / 1 + 1 / 2))) :
    (probit_predictive sf c5mean c5var "probit" "normcdf" true = Except.ok c5logits)
    ∧ c5logits 0 0 = 1 / Real.sqrt (1 + 0.5)
    ∧ c5logits 0 1 = -(1 / Real.sqrt (1 + 0.5))
    ∧ ∀ P, probit_predictive sf c5mean c5var "probit" "normcdf" false = Except.ok P →
        |P 0 0 - 0.7929| ≤ 1e-3 ∧ |P 0 1 - 0.2071| ≤ 1e-3 := by
  obtain ⟨hb1, hb2⟩ := abs_le.mp h1
  refine ⟨rfl, ?_, ?_, ?_⟩
  · show (1 : ℝ) / Real.sqrt (1 / 1 + 1 / 2) = 1 / Real.sqrt (1 + 0.5)
    rw [show (1 / 1 + 1 / 2 : ℝ) = 1 + 0.5 from by norm_num]
  · show (-1 : ℝ) / Real.sqrt (1 / 1 + 1 / 2) = -(1 / Real.sqrt (1 + 0.5))
    rw [show (1 / 1 + 1 / 2 : ℝ) = 1 + 0.5 from by norm_num, neg_div]
  · intro P hP
    rw [probit_predictive_ok sf c5mean c5var "probit" "normcdf" (c5M sf) rfl] at hP
    obtain rfl : (fun i j => max (c5M sf i j / ∑ k, c5M sf i k) 1e-10 : Mat 1 2) = P :=
      Except.ok.inj hP
    have hc00 : c5M sf 0 0 = sf.ndtr (1 / Real.sqrt (1 / 1 + 1 / 2)) := rfl
    have hc01 : c5M sf 0 1 = sf.ndtr (-(1 / Real.sqrt (1 / 1 + 1 / 2))) := by
      show sf.ndtr ((-1 : ℝ) / Real.sqrt (1 / 1 + 1 / 2))
        = sf.ndtr (-(1 / Real.sqrt (1 / 1 + 1 / 2)))
      rw [neg_div]
    have hsum : (∑ k, c5M sf 0 k) = 1 := by
      rw [Fin.sum_univ_two, hc00, hc01, h2]
      ring
    constructor
    · show |max (c5M sf 0 0 / ∑ k, c5M sf 0 k) 1e-10 - 0.7929| ≤ 1e-3
      rw [hsum, div_one, hc00,
        max_eq_left (by linarith : (1e-10 : ℝ) ≤ sf.ndtr (1 / Real.sqrt (1 / 1 + 1 / 2)))]
      exact le_trans h1 (by norm_num)
    · show |max (c5M sf 0 1 / ∑ k, c5M sf 0 k) 1e-10 - 0.2071| ≤ 1e-3
      rw [hsum, div_one, hc01, h2,
        max_eq_left (by linarith :
          (1e-10 : ℝ) ≤ 1 - sf.ndtr (1 / Real.sqrt (1 / 1 + 1 / 2)))]
      rw [show (1 : ℝ) - sf.ndtr (1 / Real.sqrt (1 / 1 + 1 / 2)) - 0.2071
        = -(sf.ndtr (1 / Real.sqrt (1 / 1 + 1 / 2)) - 0.7929) from by ring, abs_neg]
      exact le_trans h1 (by norm_num)

/-- A concrete external normal CDF that is exact at the example's two logit
points. -/
noncomputable def c5ndtr : ℝ → ℝ := fun x => if 0 ≤ x then 0.7929 else 0.2071

/-- The external layer built from that CDF. -/
noncomputable def c5sf : SpecialFns := ⟨c5ndtr, fun _ _ => 0⟩

/-- The concrete normalized, floored predictive matrix of the example. -/
noncomputable def c5P : Mat 1 2 := fun i j => max (c5M c5sf i j / ∑ k, c5M c5sf i k) 1e-10

/-- Witness for the amended C5 with a concrete external layer. -/
theorem C5_amended_end_to_end_witness :
    (probit_predictive c5sf c5mean c5var "probit" "normcdf" true = Except.ok c5logits)
    ∧ c5logits 0 0 = 1 / Real.sqrt (1 + 0.5)
    ∧ c5logits 0 1 = -(1 / Real.sqrt (1 + 0.5))
    ∧ (|c5P 0 0 - 0.7929| ≤ 1e-3 ∧ |c5P 0 1 - 0.2071| ≤ 1e-3) := by
  have hapos : (0 : ℝ) ≤ 1 / Real.sqrt (1 / 1 + 1 / 2) :=
    div_nonneg zero_le_one (Real.sqrt_nonneg _)
  have haneg : ¬(0 : ℝ) ≤ -(1 / Real.sqrt (1 / 1 + 1 / 2)) := by
    have : 0 < Real.sqrt (1 / 1 + 1 / 2) := Real.sqrt_pos.mpr (by norm_num)
    have : 0 < 1 / Real.sqrt (1 / 1 + 1 / 2) := by positivity
    linarith
  have h1 : |c5sf.ndtr (1 / Real.sqrt (1 / 1 + 1 / 2)) - 0.7929| ≤ 5e-4 := by
    show |c5ndtr (1 / Real.sqrt (1 / 1 + 1 / 2)) - 0.7929| ≤ 5e-4
    simp only [c5ndtr]
    rw [if_pos hapos]
    norm_num
  have h2 : c5sf.ndtr (-(1 / Real.sqrt (1 / 1 + 1 / 2)))
      = 1 - c5sf.ndtr (1 / Real.sqrt (1 / 1 + 1 / 2)) := by
    show c5ndtr (-(1 / Real.sqrt (1 / 1 + 1 / 2)))
      = 1 - c5ndtr (1 / Real.sqrt (1 / 1 + 1 / 2))
    simp only [c5ndtr]
    rw [if_neg haneg, if_pos hapos]
    norm_num
  have h := C5_amended_end_to_end c5sf h1 h2
  exact ⟨h.1, h.2.1, h.2.2.1,
    h.2.2.2 c5P (probit_predictive_ok c5sf c5mean c5var "probit" "normcdf" (c5M c5sf) rfl)⟩
